import Mathlib

/-!
Shallow embedding of the ant-colony TSP solver core (`tsp.rs`).

All `f32` quantities are modelled as rationals `ℚ`: the properties under
study concern control flow, exact accumulation and comparisons, never
rounding. The Rust `HashMap<EdgeKey, Edge>` is modelled as an association
list; the only whole-map iteration in the source (the carry-forward loop)
acts pointwise on values, so iteration order is irrelevant. Rust panics
(indexing a missing key, `Option::unwrap` on `None`) and the potentially
unbounded travel loop are made explicit with an `Except` result and a fuel
parameter: `AntFail.missingEdge` is a panic on a missing edge-table entry,
`AntFail.fuelOut` means the fuel bound was reached.
-/

namespace TspModel

/-- Rust `struct Edge { pheromones: [f32; 2] }`: two pheromone slots forming the
double buffer. `pher0` is `pheromones[0]`, `pher1` is `pheromones[1]`. -/
structure Edge where
  pher0 : ℚ
  pher1 : ℚ
  deriving DecidableEq, Inhabited

/-- Rust `Edge::get_pheromone(use_b)`: read `pheromones[use_b as usize]`. -/
def Edge.get_pheromone (e : Edge) (useB : Bool) : ℚ :=
  match useB with
  | false => e.pher0
  | true => e.pher1

/-- Writing through `Edge::get_pheromone_mut(use_b)`: replace
`pheromones[use_b as usize]`. -/
def Edge.set_pheromone (e : Edge) (useB : Bool) (v : ℚ) : Edge :=
  match useB with
  | false => { e with pher0 := v }
  | true => { e with pher1 := v }

/-- Rust `Edge::copy_pheromones(into_b)`: copy one slot onto the other. -/
def Edge.copy_pheromones (e : Edge) (intoB : Bool) : Edge :=
  match intoB with
  | false => { e with pher0 := e.pher1 }
  | true => { e with pher1 := e.pher0 }

/-- Rust `struct EdgeKey(usize, usize)`. -/
abbrev EdgeKey := Nat × Nat

/-- Rust `EdgeKey::new(a, b)`: canonicalize the unordered pair. -/
def EdgeKey.new (a b : Nat) : EdgeKey :=
  if a < b then (a, b) else (b, a)

/-- The colony's `edges: HashMap<EdgeKey, Edge>` as an association list. -/
abbrev EdgeTable := List (EdgeKey × Edge)

/-- Map lookup (`self.edges[&key]` / `self.edges.get_mut(&key)`). -/
def findEdge : EdgeTable → EdgeKey → Option Edge
  | [], _ => none
  | (k', e) :: t, k => if k' = k then some e else findEdge t k

/-- In-place replacement of the value stored at an existing key, as done
through `get_mut`; a missing key leaves the table unchanged (that case is
a panic, reported separately by the callers). -/
def updateEdge : EdgeTable → EdgeKey → Edge → EdgeTable
  | [], _, _ => []
  | (k', e') :: t, k, e => if k' = k then (k, e) :: t else (k', e') :: updateEdge t k e

/-- Rust `struct Colony`. -/
structure Colony where
  edges : EdgeTable
  use_map_b : Bool
  best_path : ℚ × List Nat
  path_buf : List Nat
  deriving DecidableEq, Inhabited

/-- The `Visitor` trait as a deterministic machine over a state type `σ`;
its lazy `TargetIter` is a materialized finite list in enumeration order. -/
structure VisitorM (σ : Type) where
  reset : σ → σ × Nat
  targets : σ → Nat → List (ℚ × Nat)
  walk_to : σ → Nat → σ

/-- The `Evaluator` trait: two pure functions. -/
structure EvaluatorM where
  edge_quality : ℚ → ℚ → ℚ
  pheromones_deposited : ℚ → ℚ

/-- Abnormal outcomes of the simulation: `missingEdge` is the Rust panic
on a missing edge-table entry (map indexing or `unwrap`), `fuelOut` marks
exhaustion of the explicit fuel bound on the travel loop. -/
inductive AntFail where
  | missingEdge
  | fuelOut
  deriving DecidableEq

/-- The body of the `map` closure in the travel loop: look up the edge
between `curr` and the candidate (a panic when absent) and combine raw
quality with the current-buffer pheromone into the visit score, keeping
`(visit_quality, quality, target_index)`. -/
def scoreCandidate (edges : EdgeTable) (useB : Bool) (E : EvaluatorM) (curr : Nat)
    (c : ℚ × Nat) : Except AntFail (ℚ × ℚ × Nat) :=
  match findEdge edges (EdgeKey.new curr c.2) with
  | none => .error .missingEdge
  | some e => .ok (E.edge_quality c.1 (e.get_pheromone useB), c.1, c.2)

/-- Scoring of the whole candidate enumeration, left to right, stopping at
the first panic, exactly as the lazy `map` is consumed by `max_by`. -/
def scoreCandidates (edges : EdgeTable) (useB : Bool) (E : EvaluatorM) (curr : Nat) :
    List (ℚ × Nat) → Except AntFail (List (ℚ × ℚ × Nat))
  | [] => .ok []
  | c :: cs =>
    match scoreCandidate edges useB E curr c with
    | .error f => .error f
    | .ok s =>
      match scoreCandidates edges useB E curr cs with
      | .error f => .error f
      | .ok ss => .ok (s :: ss)

/-- One step of `Iterator::max_by` on the visit score: the running maximum
is kept only when strictly greater, so a later element wins an exact tie. -/
def maxStep (acc : Option (ℚ × ℚ × Nat)) (c : ℚ × ℚ × Nat) : Option (ℚ × ℚ × Nat) :=
  match acc with
  | none => some c
  | some a => if a.1 > c.1 then some a else some c

/-- Rust `max_by` over the scored candidates (`None` on an empty enumeration). -/
def maxBySelect (l : List (ℚ × ℚ × Nat)) : Option (ℚ × ℚ × Nat) :=
  l.foldl maxStep none

/-- The `loop { ... }` of one ant: score the targets of the current node,
pick the maximal one, accumulate its raw quality, walk to it and push it
onto the path buffer; stop at a dead end. `fuel` bounds the number of
iterations of the otherwise unbounded loop. -/
def antLoop {σ : Type} (V : VisitorM σ) (E : EvaluatorM) (edges : EdgeTable) (useB : Bool) :
    Nat → σ → ℚ → Nat → List Nat → Except AntFail (σ × ℚ × Nat × List Nat)
  | 0, _, _, _, _ => .error .fuelOut
  | fuel + 1, vs, total, curr, path =>
    match scoreCandidates edges useB E curr (V.targets vs curr) with
    | .error f => .error f
    | .ok scored =>
      match maxBySelect scored with
      | none => .ok (vs, total, curr, path)
      | some (_, q, target) =>
        antLoop V E edges useB fuel (V.walk_to vs target) (total + q) target (path ++ [target])

/-- Path construction for one ant: clear the path buffer, `reset` the
visitor, run the travel loop, then push the final current node. Returns
the visitor state, the accumulated raw quality and the completed path. -/
def antConstruct {σ : Type} (V : VisitorM σ) (E : EvaluatorM) (edges : EdgeTable)
    (useB : Bool) (fuel : Nat) (vs : σ) : Except AntFail (σ × ℚ × List Nat) :=
  let r := V.reset vs
  match antLoop V E edges useB fuel r.1 0 r.2 [] with
  | .error f => .error f
  | .ok (vs', total, curr, path) => .ok (vs', total, path ++ [curr])

/-- One iteration of the deposit loop at index `i`: key the consecutive
pair `(path_buf[i], path_buf[i+1])`, `get_mut(...).unwrap()` (a panic when
the key is absent) and add the deposit to the current-buffer slot. -/
def depositIdx (useB : Bool) (amt : ℚ) (path : List Nat) (edges : EdgeTable)
    (i : Nat) : Except AntFail EdgeTable :=
  let key := EdgeKey.new (path.getD i 0) (path.getD (i + 1) 0)
  match findEdge edges key with
  | none => .error .missingEdge
  | some e => .ok (updateEdge edges key (e.set_pheromone useB (e.get_pheromone useB + amt)))

/-- Folding the deposit over a list of indices. -/
def depositGo (useB : Bool) (amt : ℚ) (path : List Nat) :
    List Nat → EdgeTable → Except AntFail EdgeTable
  | [], edges => .ok edges
  | i :: is, edges =>
    match depositIdx useB amt path edges i with
    | .error f => .error f
    | .ok edges' => depositGo useB amt path is edges'

/-- Loop `for i in 0..(self.path_buf.len() - 1)`: the full deposit pass. -/
def depositAll (useB : Bool) (amt : ℚ) (path : List Nat) (edges : EdgeTable) :
    Except AntFail EdgeTable :=
  depositGo useB amt path (List.range (path.length - 1)) edges

/-- One full ant of `Colony::run`: construct the path, deposit
`pheromones_deposited(total_quality)` on every consecutive pair of the
path buffer, and, when the total quality strictly exceeds the recorded
best quality, `mem::swap` the path buffer with the best path — note the
source swaps only the path component and never writes the quality. -/
def simulateAnt {σ : Type} (V : VisitorM σ) (E : EvaluatorM) (fuel : Nat) (vs : σ)
    (c : Colony) : Except AntFail (σ × Colony) :=
  match antConstruct V E c.edges c.use_map_b fuel vs with
  | .error f => .error f
  | .ok (vs', total, path) =>
    let deposited := E.pheromones_deposited total
    match depositAll c.use_map_b deposited path c.edges with
    | .error f => .error f
    | .ok edges' =>
      if total > c.best_path.1 then
        .ok (vs', { c with edges := edges', best_path := (c.best_path.1, path),
                           path_buf := c.best_path.2 })
      else
        .ok (vs', { c with edges := edges', path_buf := path })

/-- Loop `for _ in 0..ant_count`: the ants of one generation, sequentially. -/
def antsPhase {σ : Type} (V : VisitorM σ) (E : EvaluatorM) (fuel : Nat) :
    Nat → σ → Colony → Except AntFail (σ × Colony)
  | 0, vs, c => .ok (vs, c)
  | n + 1, vs, c =>
    match simulateAnt V E fuel vs c with
    | .error f => .error f
    | .ok (vs', c') => antsPhase V E fuel n vs' c'

/-- The carry-forward pass at the top of `Colony::run`:
`edge.copy_pheromones(self.use_map_b)` for every stored edge. -/
def carryForward (edges : EdgeTable) (useB : Bool) : EdgeTable :=
  edges.map (fun p => (p.1, p.2.copy_pheromones useB))

/-- Rust `Colony::run(ant_count, visitor, evaluator)`: carry the prior buffer
forward, simulate the ants, then flip the buffer-selection flag. A panic
anywhere aborts the whole call (no flip happens). -/
def Colony.run {σ : Type} (V : VisitorM σ) (E : EvaluatorM) (fuel ant_count : Nat)
    (vs : σ) (c : Colony) : Except AntFail (σ × Colony) :=
  match antsPhase V E fuel ant_count vs { c with edges := carryForward c.edges c.use_map_b } with
  | .error f => .error f
  | .ok (vs', c') => .ok (vs', { c' with use_map_b := !c'.use_map_b })

/-- Rust `Colony::best_path()`: `Some` exactly when the stored quality is
strictly positive. -/
def Colony.bestPath (c : Colony) : Option (ℚ × List Nat) :=
  if c.best_path.1 > 0 then some c.best_path else none

/-! ### Concrete policies and colonies used in the evaluations -/

/-- A traversal policy on the two-node graph `{0, 1}`: every ant starts at
node 0, node 0 offers the single target `(quality 10, node 1)`, node 1 is
a dead end. -/
def oneStepVisitor : VisitorM Unit where
  reset := fun _ => ((), 0)
  targets := fun _ n => if n = 0 then [(10, 1)] else []
  walk_to := fun s _ => s

/-- The scoring policy of the spec's scenario: visit score is raw quality
plus pheromone, deposit equals the total quality. -/
def addEvaluator : EvaluatorM where
  edge_quality := fun q p => q + p
  pheromones_deposited := fun t => t

/-- A traversal policy that always offers two targets of equal quality
from the start node 0, producing an exact visit-score tie. -/
def tieVisitor : VisitorM Unit where
  reset := fun _ => ((), 0)
  targets := fun _ n => if n = 0 then [(1, 1), (1, 2)] else []
  walk_to := fun s _ => s

/-- A traversal policy whose first `targets` query is already empty: the
ant makes zero moves. -/
def haltVisitor : VisitorM Unit where
  reset := fun _ => ((), 5)
  targets := fun _ _ => []
  walk_to := fun s _ => s

/-- A freshly constructed colony (`Colony::new()` / `Default`). -/
def emptyColony : Colony := ⟨[], false, (0, []), []⟩

/-- A colony whose table holds the single edge `{0, 1}` at zero pheromone
in both buffers. -/
def oneEdgeColony : Colony := ⟨[((0, 1), ⟨0, 0⟩)], false, (0, []), []⟩

/-- A colony seeded with the edge `{0, 1}` and additionally the self-loop
key `(1, 1)` (which the deposit loop of the source addresses), both at
zero pheromone. -/
def seededColony : Colony := ⟨[((0, 1), ⟨0, 0⟩), ((1, 1), ⟨0, 0⟩)], false, (0, []), []⟩

/-- A colony for the tie scenario: edges from 0 to both candidates plus
the self-loop key `(2, 2)` addressed by the deposit loop. -/
def tieColony : Colony :=
  ⟨[((0, 1), ⟨0, 0⟩), ((0, 2), ⟨0, 0⟩), ((2, 2), ⟨0, 0⟩)], false, (0, []), []⟩

/-! ### Helper lemmas -/

/-- The carry-forward pass preserves the list of keys of the table. -/
theorem carryForward_keys (edges : EdgeTable) (b : Bool) :
    (carryForward edges b).map Prod.fst = edges.map Prod.fst := by
  induction edges with
  | nil => rfl
  | cons p t ih => simp [carryForward]

/-- Lookup in the carried-forward table is the carried-forward lookup. -/
theorem findEdge_carryForward (edges : EdgeTable) (b : Bool) (k : EdgeKey) :
    findEdge (carryForward edges b) k =
      (findEdge edges k).map (fun e => e.copy_pheromones b) := by
  induction edges with
  | nil => rfl
  | cons p t ih =>
    obtain ⟨k', e⟩ := p
    by_cases h : k' = k
    · simp [carryForward, findEdge, h]
    · simpa [carryForward, findEdge, h] using ih

/-! ### Claim theorems -/

/-- Claim C1, behaviour of the code at the failing input: scoring a
candidate move whose edge is not yet in the table does not create the
edge — it panics. Starting from a fresh colony (empty table), one ant
whose first candidate is node 1 panics on the lookup of edge `{0, 1}`. -/
theorem c1_first_edge_reference_panics :
    Colony.run oneStepVisitor addEvaluator 3 1 () emptyColony =
      .error .missingEdge ∧
    findEdge emptyColony.edges (EdgeKey.new 0 1) = none := by
  exact ⟨rfl, rfl⟩

/-- Claim C2, behaviour of the code at the failing input: an ant with
total quality `10 > 0` completes a generation, yet `best_path()` still
returns `none`, because the source's best-path update swaps only the path
vector and never writes the quality, which stays `0`. -/
theorem c2_best_path_stays_none :
    Colony.run oneStepVisitor addEvaluator 3 1 () seededColony =
      .ok ((), ⟨[((0, 1), ⟨0, 0⟩), ((1, 1), ⟨10, 0⟩)], true, (0, [1, 1]), []⟩) ∧
    Colony.bestPath ⟨[((0, 1), ⟨0, 0⟩), ((1, 1), ⟨10, 0⟩)], true, (0, [1, 1]), []⟩ = none := by
  constructor
  · norm_num [Colony.run, antsPhase, simulateAnt, antConstruct, antLoop, scoreCandidates,
      scoreCandidate, maxBySelect, maxStep, findEdge, depositAll, depositGo, depositIdx,
      EdgeKey.new, Edge.get_pheromone, Edge.set_pheromone, Edge.copy_pheromones, updateEdge,
      carryForward, oneStepVisitor, addEvaluator, seededColony]
  · norm_num [Colony.bestPath]

/-- Claim C4, behaviour of the code at the failing input: on the two-node
graph with the single edge `{0, 1}` at zero pheromone, path construction
succeeds with total quality `10` and path buffer `[1, 1]` (the start node
is never pushed and the final node is pushed twice), after which the
deposit pass keys the consecutive pair `(1, 1)` — a self-loop absent from
the table — and panics; the traversed edge `{0, 1}` receives no deposit. -/
theorem c4_single_edge_deposit_panics :
    Colony.run oneStepVisitor addEvaluator 3 1 () oneEdgeColony =
      .error .missingEdge ∧
    antConstruct oneStepVisitor addEvaluator oneEdgeColony.edges false 3 () =
      .ok ((), 10, [1, 1]) ∧
    depositAll false 10 [1, 1] oneEdgeColony.edges = .error .missingEdge := by
  refine ⟨rfl, ?_, rfl⟩
  norm_num [antConstruct, antLoop, scoreCandidates, scoreCandidate, maxBySelect, maxStep,
    findEdge, EdgeKey.new, Edge.get_pheromone, oneStepVisitor, addEvaluator, oneEdgeColony]

/-- Claim C5: one generation with `ant_count = 0` only carries the prior
buffer into the current slot of every stored edge and flips the
buffer-selection flag; keys, the prior (source) slot, best-path record and
scratch buffer are unchanged. -/
theorem c5_zero_ants_frame {σ : Type} (V : VisitorM σ) (E : EvaluatorM) (fuel : Nat)
    (vs : σ) (c : Colony) :
    Colony.run V E fuel 0 vs c =
      .ok (vs, { c with edges := carryForward c.edges c.use_map_b,
                        use_map_b := !c.use_map_b }) ∧
    (carryForward c.edges c.use_map_b).map Prod.fst = c.edges.map Prod.fst ∧
    (∀ k, findEdge (carryForward c.edges c.use_map_b) k =
        (findEdge c.edges k).map (fun e => e.copy_pheromones c.use_map_b)) ∧
    ∀ e : Edge,
      (e.copy_pheromones c.use_map_b).get_pheromone c.use_map_b =
          e.get_pheromone (!c.use_map_b) ∧
      (e.copy_pheromones c.use_map_b).get_pheromone (!c.use_map_b) =
          e.get_pheromone (!c.use_map_b) := by
  refine ⟨rfl, carryForward_keys c.edges c.use_map_b,
    fun k => findEdge_carryForward c.edges c.use_map_b k, fun e => ?_⟩
  cases hb : c.use_map_b <;> exact ⟨rfl, rfl⟩

/-- Applying `maxStep` to an empty running maximum takes the new candidate. -/
theorem maxStep_none (c : ℚ × ℚ × Nat) : maxStep none c = some c := rfl

/-- Applying `maxStep` to a running maximum keeps it only when strictly greater. -/
theorem maxStep_some (a c : ℚ × ℚ × Nat) :
    maxStep (some a) c = if a.1 > c.1 then some a else some c := rfl

/-- Folding `maxStep` over candidates all of visit score at most `q`
yields `none` or a candidate of visit score at most `q`. -/
theorem foldl_maxStep_bounded (q : ℚ) :
    ∀ (l : List (ℚ × ℚ × Nat)) (acc : Option (ℚ × ℚ × Nat)),
      (∀ y ∈ l, y.1 ≤ q) → (acc = none ∨ ∃ a, acc = some a ∧ a.1 ≤ q) →
      l.foldl maxStep acc = none ∨ ∃ a, l.foldl maxStep acc = some a ∧ a.1 ≤ q := by
  intro l
  induction l with
  | nil => intro acc _ hacc; simpa using hacc
  | cons y t ih =>
    intro acc hl hacc
    rw [List.foldl_cons]
    refine ih (maxStep acc y) (fun z hz => hl z (List.mem_cons_of_mem y hz)) ?_
    have hy : y.1 ≤ q := hl y (List.mem_cons_self y t)
    rcases hacc with h | ⟨a, ha, haq⟩
    · subst h; exact Or.inr ⟨y, rfl, hy⟩
    · subst ha
      rw [maxStep_some]
      by_cases hay : a.1 > y.1
      · rw [if_pos hay]; exact Or.inr ⟨a, rfl, haq⟩
      · rw [if_neg hay]; exact Or.inr ⟨y, rfl, hy⟩

/-- Folding `maxStep` over candidates of strictly smaller visit score
keeps the running maximum. -/
theorem foldl_maxStep_keeps (a : ℚ × ℚ × Nat) :
    ∀ (l : List (ℚ × ℚ × Nat)), (∀ y ∈ l, y.1 < a.1) →
      l.foldl maxStep (some a) = some a := by
  intro l
  induction l with
  | nil => intro _; rfl
  | cons y t ih =>
    intro hl
    rw [List.foldl_cons]
    have hy : y.1 < a.1 := hl y (List.mem_cons_self y t)
    have hk : maxStep (some a) y = some a := by rw [maxStep_some, if_pos hy]
    rw [hk]
    exact ih (fun z hz => hl z (List.mem_cons_of_mem y hz))

/-- Claim C3, amended: in a candidate enumeration, the element selected is
the last one attaining the maximal visit score — `max_by` replaces the
running maximum on an exact tie, so the last-enumerated tied candidate
wins. -/
theorem c3_tie_selects_last (pre post : List (ℚ × ℚ × Nat)) (c : ℚ × ℚ × Nat)
    (hpre : ∀ y ∈ pre, y.1 ≤ c.1) (hpost : ∀ y ∈ post, y.1 < c.1) :
    maxBySelect (pre ++ c :: post) = some c := by
  unfold maxBySelect
  rw [List.foldl_append, List.foldl_cons]
  have hstep : maxStep (pre.foldl maxStep none) c = some c := by
    rcases foldl_maxStep_bounded c.1 pre none hpre (Or.inl rfl) with h | ⟨a, ha, haq⟩
    · rw [h, maxStep_none]
    · rw [ha, maxStep_some, if_neg (not_lt.mpr haq)]
  rw [hstep]
  exact foldl_maxStep_keeps c post hpost

/-- Witness for the amended Claim C3 at a concrete enumeration: with the
candidates scored `1, 1, 0`, the second of the two tied candidates (the
last maximal one) is selected. -/
theorem c3_tie_selects_last_witness :
    maxBySelect [((1 : ℚ), (0 : ℚ), 5), (1, 0, 7), (0, 0, 9)] = some (1, 0, 7) :=
  c3_tie_selects_last [(1, 0, 5)] [(0, 0, 9)] (1, 0, 7)
    (by intro y hy; rw [List.mem_singleton] at hy; subst hy; norm_num)
    (by intro y hy; rw [List.mem_singleton] at hy; subst hy; norm_num)

/-- Claim C3, counterexample to the claim as stated: from node 0 the two
candidates `(quality 1, node 1)` and `(quality 1, node 2)` tie exactly on
visit score; the ant walks to node 2 — the last-enumerated candidate —
and its recorded path is `[2, 2]`, not the `[1, 1]` the first-enumerated
selection would have produced. -/
theorem c3_first_tied_candidate_not_selected :
    Colony.run tieVisitor addEvaluator 3 1 () tieColony =
      .ok ((), ⟨[((0, 1), ⟨0, 0⟩), ((0, 2), ⟨0, 0⟩), ((2, 2), ⟨1, 0⟩)], true,
                (0, [2, 2]), []⟩) ∧
    ([2, 2] : List Nat) ≠ [1, 1] := by
  constructor
  · norm_num [Colony.run, antsPhase, simulateAnt, antConstruct, antLoop, scoreCandidates,
      scoreCandidate, maxBySelect, maxStep, findEdge, depositAll, depositGo, depositIdx,
      EdgeKey.new, Edge.get_pheromone, Edge.set_pheromone, Edge.copy_pheromones, updateEdge,
      carryForward, tieVisitor, addEvaluator, tieColony]
  · simp

/-- Claim C6: `run` is deterministic — identical colony states, visitor
states and (deterministic, functionally modelled) policies yield identical
results, in particular identical edge tables and best-path records. -/
theorem c6_run_deterministic {σ : Type} (V₁ V₂ : VisitorM σ) (E₁ E₂ : EvaluatorM)
    (fuel n : Nat) (vs₁ vs₂ : σ) (c₁ c₂ : Colony) (hV : V₁ = V₂) (hE : E₁ = E₂)
    (hvs : vs₁ = vs₂) (hc : c₁ = c₂) :
    Colony.run V₁ E₁ fuel n vs₁ c₁ = Colony.run V₂ E₂ fuel n vs₂ c₂ ∧
    (Colony.run V₁ E₁ fuel n vs₁ c₁).map (fun p => p.2.edges) =
      (Colony.run V₂ E₂ fuel n vs₂ c₂).map (fun p => p.2.edges) ∧
    (Colony.run V₁ E₁ fuel n vs₁ c₁).map (fun p => Colony.bestPath p.2) =
      (Colony.run V₂ E₂ fuel n vs₂ c₂).map (fun p => Colony.bestPath p.2) := by
  subst hV; subst hE; subst hvs; subst hc
  exact ⟨rfl, rfl, rfl⟩

/-- Witness for Claim C6 at concrete inputs. -/
theorem c6_run_deterministic_witness :
    Colony.run oneStepVisitor addEvaluator 3 0 () seededColony =
      Colony.run oneStepVisitor addEvaluator 3 0 () seededColony ∧
    (Colony.run oneStepVisitor addEvaluator 3 0 () seededColony).map
        (fun p => p.2.edges) =
      (Colony.run oneStepVisitor addEvaluator 3 0 () seededColony).map
        (fun p => p.2.edges) ∧
    (Colony.run oneStepVisitor addEvaluator 3 0 () seededColony).map
        (fun p => Colony.bestPath p.2) =
      (Colony.run oneStepVisitor addEvaluator 3 0 () seededColony).map
        (fun p => Colony.bestPath p.2) :=
  c6_run_deterministic oneStepVisitor oneStepVisitor addEvaluator addEvaluator 3 0
    () () seededColony seededColony rfl rfl rfl rfl

/-- One ant never changes the stored best quality: the source's update
swaps only the path component of the best-path record. -/
theorem simulateAnt_best_quality {σ : Type} (V : VisitorM σ) (E : EvaluatorM)
    (fuel : Nat) (vs : σ) (c : Colony) (vs' : σ) (c' : Colony)
    (h : simulateAnt V E fuel vs c = .ok (vs', c')) :
    c'.best_path.1 = c.best_path.1 := by
  unfold simulateAnt at h
  cases h1 : antConstruct V E c.edges c.use_map_b fuel vs with
  | error f => simp [h1] at h
  | ok r =>
    obtain ⟨vs0, total, path⟩ := r
    simp only [h1] at h
    cases h2 : depositAll c.use_map_b (E.pheromones_deposited total) path c.edges with
    | error f => simp [h2] at h
    | ok edges' =>
      simp only [h2] at h
      split at h <;> simp only [Except.ok.injEq, Prod.mk.injEq] at h <;>
        rw [← h.2]

/-- The whole ant phase never changes the stored best quality. -/
theorem antsPhase_best_quality {σ : Type} (V : VisitorM σ) (E : EvaluatorM)
    (fuel : Nat) : ∀ (n : Nat) (vs : σ) (c : Colony) (vs' : σ) (c' : Colony),
    antsPhase V E fuel n vs c = .ok (vs', c') → c'.best_path.1 = c.best_path.1 := by
  intro n
  induction n with
  | zero =>
    intro vs c vs' c' h
    simp only [antsPhase, Except.ok.injEq, Prod.mk.injEq] at h
    rw [← h.2]
  | succ n ih =>
    intro vs c vs' c' h
    unfold antsPhase at h
    cases h1 : simulateAnt V E fuel vs c with
    | error f => simp [h1] at h
    | ok r =>
      obtain ⟨vs0, c0⟩ := r
      simp only [h1] at h
      rw [ih vs0 c0 vs' c' h]
      exact simulateAnt_best_quality V E fuel vs c vs0 c0 h1

/-- Claim C7: across a generation the recorded best quality never
decreases, and a `Some` result of `best_path()` never reverts to `None`. -/
theorem c7_best_quality_monotone {σ : Type} (V : VisitorM σ) (E : EvaluatorM)
    (fuel n : Nat) (vs : σ) (c : Colony) (vs' : σ) (c' : Colony)
    (h : Colony.run V E fuel n vs c = .ok (vs', c')) :
    c.best_path.1 ≤ c'.best_path.1 ∧
    ((Colony.bestPath c).isSome → (Colony.bestPath c').isSome) := by
  have hq : c'.best_path.1 = c.best_path.1 := by
    unfold Colony.run at h
    cases h1 : antsPhase V E fuel n vs
        { c with edges := carryForward c.edges c.use_map_b } with
    | error f => simp [h1] at h
    | ok r =>
      obtain ⟨vs0, c0⟩ := r
      simp only [h1, Except.ok.injEq, Prod.mk.injEq] at h
      rw [← h.2]
      exact antsPhase_best_quality V E fuel n vs
        { c with edges := carryForward c.edges c.use_map_b } vs0 c0 h1
  refine ⟨le_of_eq hq.symm, fun hs => ?_⟩
  by_cases hp : c.best_path.1 > 0
  · simp [Colony.bestPath, hq, hp]
  · simp [Colony.bestPath, hp] at hs

/-- Witness for Claim C7 at a concrete zero-ant generation. -/
theorem c7_best_quality_monotone_witness :
    seededColony.best_path.1 ≤
      (⟨[((0, 1), ⟨0, 0⟩), ((1, 1), ⟨0, 0⟩)], true, (0, []), []⟩ : Colony).best_path.1 ∧
    ((Colony.bestPath seededColony).isSome →
      (Colony.bestPath
        (⟨[((0, 1), ⟨0, 0⟩), ((1, 1), ⟨0, 0⟩)], true, (0, []), []⟩ : Colony)).isSome) :=
  c7_best_quality_monotone oneStepVisitor addEvaluator 3 0 () seededColony ()
    ⟨[((0, 1), ⟨0, 0⟩), ((1, 1), ⟨0, 0⟩)], true, (0, []), []⟩ rfl

/-- Claim C8: the canonical edge key is order-independent, so `(a, b)` and
`(b, a)` always address the same pheromone record. -/
theorem c8_edge_key_unordered (a b : Nat) : EdgeKey.new a b = EdgeKey.new b a := by
  unfold EdgeKey.new
  rcases Nat.lt_trichotomy a b with h | h | h
  · rw [if_pos h, if_neg (by omega)]
  · subst h; rfl
  · rw [if_neg (by omega), if_pos h]

/-- The travel loop only ever appends to the path buffer: a successful run
extends the incoming path by the list of visited targets, and the final
current node is the last of those targets (or the incoming current node
when no move happened). -/
theorem antLoop_path_extension {σ : Type} (V : VisitorM σ) (E : EvaluatorM)
    (edges : EdgeTable) (useB : Bool) :
    ∀ (fuel : Nat) (vs : σ) (total : ℚ) (curr : Nat) (path : List Nat)
      (vs' : σ) (total' : ℚ) (curr' : Nat) (path' : List Nat),
      antLoop V E edges useB fuel vs total curr path = .ok (vs', total', curr', path') →
      ∃ moved : List Nat, path' = path ++ moved ∧ curr' = moved.getLastD curr := by
  intro fuel
  induction fuel with
  | zero =>
    intro vs total curr path vs' total' curr' path' h
    exact absurd h (by simp [antLoop])
  | succ fuel ih =>
    intro vs total curr path vs' total' curr' path' h
    unfold antLoop at h
    cases hs : scoreCandidates edges useB E curr (V.targets vs curr) with
    | error f => simp [hs] at h
    | ok scored =>
      simp only [hs] at h
      cases hm : maxBySelect scored with
      | none =>
        simp only [hm, Except.ok.injEq, Prod.mk.injEq] at h
        obtain ⟨h1, h2, h3, h4⟩ := h
        exact ⟨[], by rw [← h4, List.append_nil], by rw [← h3]; rfl⟩
      | some t =>
        obtain ⟨v, q, target⟩ := t
        simp only [hm] at h
        obtain ⟨moved, hp, hc⟩ := ih (V.walk_to vs target) (total + q) target
          (path ++ [target]) vs' total' curr' path' h
        refine ⟨target :: moved, ?_, ?_⟩
        · rw [hp, List.append_assoc]; rfl
        · rw [hc, List.getLastD_cons]

/-- Claim C9: the start node returned by `reset` is never pushed onto the
path buffer. First conjunct: an ant whose first `targets` query is empty
produces the one-element path holding exactly the reset node (pushed only
by the final append). Second conjunct: the deposit pass over a one-element
path touches no edge. Third conjunct: in general the completed path is
the list of nodes reached by a move followed by one final append of the
current node — the last moved-to node, or the reset node when the ant
never moved. -/
theorem c9_start_node_never_pushed :
    (∀ (σ : Type) (V : VisitorM σ) (E : EvaluatorM) (edges : EdgeTable) (useB : Bool)
        (fuel : Nat) (vs : σ),
      V.targets (V.reset vs).1 (V.reset vs).2 = [] →
      antConstruct V E edges useB (fuel + 1) vs =
        .ok ((V.reset vs).1, 0, [(V.reset vs).2])) ∧
    (∀ (useB : Bool) (amt : ℚ) (x : Nat) (edges : EdgeTable),
      depositAll useB amt [x] edges = .ok edges) ∧
    ∀ (σ : Type) (V : VisitorM σ) (E : EvaluatorM) (edges : EdgeTable) (useB : Bool)
      (fuel : Nat) (vs : σ) (total : ℚ) (curr : Nat) (path : List Nat)
      (vs' : σ) (total' : ℚ) (curr' : Nat) (path' : List Nat),
      antLoop V E edges useB fuel vs total curr path = .ok (vs', total', curr', path') →
      path' = path ++ path'.drop path.length ∧
        curr' = (path'.drop path.length).getLastD curr := by
  refine ⟨?_, ?_, ?_⟩
  · intro σ V E edges useB fuel vs h
    simp [antConstruct, antLoop, h, scoreCandidates, maxBySelect]
  · intro useB amt x edges
    rfl
  · intro σ V E edges useB fuel vs total curr path vs' total' curr' path' h
    obtain ⟨moved, hp, hc⟩ := antLoop_path_extension V E edges useB fuel
      vs total curr path vs' total' curr' path' h
    have hd : path'.drop path.length = moved := by rw [hp, List.drop_left]
    rw [hd]
    exact ⟨hp, hc⟩

/-- Witness for Claim C9: a zero-move ant (its first `targets` query is
empty) yields the one-element path `[5]` holding the reset node and its
deposit pass leaves the empty edge table untouched; a one-move ant on the
single-edge graph has path `[1]` at loop exit — the moved-to node, not the
start node 0 — and final current node `1`. -/
theorem c9_start_node_never_pushed_witness :
    antConstruct haltVisitor addEvaluator [] false 1 () = .ok ((), 0, [5]) ∧
    depositAll false 0 [5] [] = .ok ([] : EdgeTable) ∧
    (([1] : List Nat) = [] ++ ([1] : List Nat).drop ([] : List Nat).length ∧
      1 = (([1] : List Nat).drop ([] : List Nat).length).getLastD 0) :=
  ⟨c9_start_node_never_pushed.1 Unit haltVisitor addEvaluator [] false 0 () rfl,
   c9_start_node_never_pushed.2.1 false 0 5 [],
   c9_start_node_never_pushed.2.2 Unit oneStepVisitor addEvaluator oneEdgeColony.edges
     false 3 () 0 0 [] () (0 + 10) 1 [1] rfl⟩

/-- Claim C10: when the deposit phase begins the completed path buffer is
non-empty — the final push always happened — so the loop bound
`path_buf.len() - 1` cannot underflow and every index `i` drawn from the
deposit loop's range satisfies `i < len` and `i + 1 < len`. -/
theorem c10_deposit_bounds {σ : Type} (V : VisitorM σ) (E : EvaluatorM)
    (edges : EdgeTable) (useB : Bool) (fuel : Nat) (vs vs' : σ) (total : ℚ)
    (path : List Nat) (i : Nat)
    (h : antConstruct V E edges useB fuel vs = .ok (vs', total, path))
    (hi : i ∈ List.range (path.length - 1)) :
    path ≠ [] ∧ 1 ≤ path.length ∧ i < path.length ∧ i + 1 < path.length := by
  unfold antConstruct at h
  cases h1 : antLoop V E edges useB fuel (V.reset vs).1 0 (V.reset vs).2 [] with
  | error f => simp [h1] at h
  | ok r =>
    obtain ⟨vs0, t0, curr0, p0⟩ := r
    simp only [h1, Except.ok.injEq, Prod.mk.injEq] at h
    have hp : path = p0 ++ [curr0] := h.2.2.symm
    have hlen : 1 ≤ path.length := by rw [hp]; simp
    rw [List.mem_range] at hi
    refine ⟨?_, hlen, by omega, by omega⟩
    rw [hp]
    simp

/-- Witness for Claim C10: the one-move ant on the single-edge graph
completes with path buffer `[1, 1]`; with `i = 0`, both deposit indices
are in bounds. -/
theorem c10_deposit_bounds_witness :
    ([1, 1] : List Nat) ≠ [] ∧ 1 ≤ ([1, 1] : List Nat).length ∧
      0 < ([1, 1] : List Nat).length ∧ 0 + 1 < ([1, 1] : List Nat).length :=
  c10_deposit_bounds oneStepVisitor addEvaluator oneEdgeColony.edges false 3 () ()
    10 [1, 1] 0
    (by norm_num [antConstruct, antLoop, scoreCandidates, scoreCandidate, maxBySelect,
      maxStep, findEdge, EdgeKey.new, Edge.get_pheromone, oneStepVisitor, addEvaluator,
      oneEdgeColony])
    (by simp)

end TspModel
